import Mathlib

/-!
# Library Management System — verification development

Shallow embedding of the library-management example (`real_world_example.py`):
items, patrons, the `LibrarySystem` aggregate with its public operations, the
observer-pattern notification fan-out, and the analytics queries.  Python
dictionaries are modelled as insertion-ordered association lists with unique
keys, wall-clock timestamps as integer seconds, and currency amounts as
rational numbers (every amount the code produces is a multiple of 0.25, which
is exact).
-/

set_option maxHeartbeats 1000000

/-- Attribute values an item can carry (author, isbn, pages, …).  The search
code only distinguishes strings (substring match) from everything else
(exact equality), so strings, integers and booleans suffice. -/
inductive AttrVal where
  | str (s : String)
  | int (n : Int)
  | bool (b : Bool)
deriving DecidableEq

/-- First-match lookup in an association list (Python `d.get(k)` / `d[k]`). -/
def dget {α : Type} : List (String × α) → String → Option α
  | [], _ => none
  | (k0, v0) :: t, k => if k0 = k then some v0 else dget t k

/-- Python `d[k] = v` on an insertion-ordered dict: overwrite the existing
entry in place, or append a fresh key at the end. -/
def dinsert {α : Type} : List (String × α) → String → α → List (String × α)
  | [], k, v => [(k, v)]
  | (k0, v0) :: t, k, v => if k0 = k then (k0, v) :: t else (k0, v0) :: dinsert t k v

/-- Python `del d[k]`: drop the entry with key `k`. -/
def ddel {α : Type} (l : List (String × α)) (k : String) : List (String × α) :=
  l.filter (fun e => decide (e.1 ≠ k))

/-- The keys of an association list, in insertion order. -/
def keys {α : Type} (l : List (String × α)) : List String := l.map Prod.fst

/-- Contiguous-substring test on character lists (Python `needle in hay`). -/
def substrB (needle : List Char) : List Char → Bool
  | [] => needle.isEmpty
  | c :: t => needle.isPrefixOf (c :: t) || substrB needle t

/-- `counts[k] = counts.get(k, 0) + 1` on an insertion-ordered dict:
increment the existing entry in place, or append the key with count 1. -/
def bump : List (String × Nat) → String → List (String × Nat)
  | [], k => [(k, 1)]
  | (k0, n) :: t, k => if k0 = k then (k0, n + 1) :: t else (k0, n) :: bump t k

/-- The distinct elements of a list in order of first occurrence. -/
def dedupFirst : List String → List String
  | [] => []
  | x :: t => x :: (dedupFirst t).filter (fun y => decide (y ≠ x))

/-- Stable insertion into a list sorted by weakly descending key: the new
element goes after every element whose key is greater or equal. -/
def insDesc {α : Type} (key : α → Nat) (x : α) : List α → List α
  | [] => [x]
  | y :: t => if key y < key x then x :: y :: t else y :: insDesc key x t

/-- Stable sort, descending by `key`, processing elements left to right
(the behaviour of Python's stable `list.sort(key=…, reverse=True)`). -/
def sortDesc {α : Type} (key : α → Nat) (l : List α) : List α :=
  l.foldl (fun acc x => insDesc key x acc) []

/-- One day in seconds; timestamps are integer seconds. -/
def secPerDay : Int := 86400

/-- A catalog item (`LibraryItem` and its subclasses).  `attrs` carries the
subclass attributes (author, isbn, pages, …) that `search_items` inspects via
`getattr`; `title` and `item_id` are attributes of every item. -/
structure Item where
  item_id : String
  title : String
  checked_out : Bool
  attrs : List (String × AttrVal)
deriving DecidableEq

/-- `LibraryItem.check_out`: flip the flag unless already checked out;
returns whether the flip happened together with the updated item. -/
def Item.check_out (it : Item) : Bool × Item :=
  if it.checked_out then (false, it) else (true, { it with checked_out := true })

/-- `LibraryItem.check_in`: clear the flag unless already checked in. -/
def Item.check_in (it : Item) : Bool × Item :=
  if it.checked_out then (true, { it with checked_out := false }) else (false, it)

/-- Python attribute access used by the search: every item exposes `title`
and `item_id`; the remaining attributes come from the subclass (`attrs`). -/
def Item.getAttr (it : Item) (k : String) : Option AttrVal :=
  if k = "title" then some (AttrVal.str it.title)
  else if k = "item_id" then some (AttrVal.str it.item_id)
  else dget it.attrs k

/-- A patron: borrowed items map item id to the recorded due date
(integer-second timestamp), plus the accumulated fine. -/
structure Patron where
  person_id : String
  name : String
  borrowed_items : List (String × Int)
  fine_amount : ℚ
deriving DecidableEq

/-- `Patron.borrow_item`: fails if the item is checked out or its id is
already in the borrowed mapping; otherwise checks the item out and records
due date `now + due_days`. -/
def Patron.borrow_item (p : Patron) (it : Item) (now : Int) (due_days : Int) :
    Bool × Patron × Item :=
  if it.checked_out || (dget p.borrowed_items it.item_id).isSome then (false, p, it)
  else
    let r := it.check_out
    if r.1 then
      let due := now + due_days * secPerDay
      (true, { p with borrowed_items := dinsert p.borrowed_items it.item_id due }, r.2)
    else (false, p, it)

/-- `Patron.return_item`: fails if the item id is not in the borrowed
mapping; otherwise removes the entry, checks the item in, and — when `now`
is strictly past the due date — charges `days_late * 0.25` where `days_late`
is the whole-day part of the overdue interval. -/
def Patron.return_item (p : Patron) (it : Item) (now : Int) :
    (Bool × ℚ) × Patron × Item :=
  match dget p.borrowed_items it.item_id with
  | none => ((false, 0), p, it)
  | some due =>
    let b := ddel p.borrowed_items it.item_id
    let it2 := (it.check_in).2
    if due < now then
      let days_late : Int := (now - due) / secPerDay
      let fine : ℚ := (days_late : ℚ) * (1 / 4)
      ((true, fine), { p with borrowed_items := b, fine_amount := p.fine_amount + fine }, it2)
    else ((true, 0), { p with borrowed_items := b }, it2)

/-- `Patron.pay_fine`: fails on a non-positive amount or an overpayment,
otherwise decrements the accumulated fine. -/
def Patron.pay_fine (p : Patron) (amount : ℚ) : Bool × Patron :=
  if amount ≤ 0 ∨ p.fine_amount < amount then (false, p)
  else (true, { p with fine_amount := p.fine_amount - amount })

/-- A librarian (only the identity matters for the system state). -/
structure Librarian where
  person_id : String
deriving DecidableEq

/-- A transaction-log record: type tag plus the details the code stores. -/
inductive Transaction where
  | add_item (item_id : String)
  | remove_item (item_id : String)
  | register_patron (patron_id : String)
  | add_librarian (librarian_id : String)
  | check_out (patron_id item_id : String) (due_days : Int)
  | return_item (patron_id item_id : String) (fine : ℚ)
deriving DecidableEq

/-- The item id of a `check_out` record, if the record is one. -/
def Transaction.coItemId : Transaction → Option String
  | .check_out _ iid _ => some iid
  | _ => none

/-- A notification sink (`Observer`): `ok msg` tells whether its `update`
call on `msg` returns normally (`true`) or raises (`false`). -/
structure Sink where
  id : Nat
  ok : String → Bool

/-- `Subject.notify`: call `update` on every observer in subscription order.
There is no exception handling in the loop, so an observer whose `update`
raises stops the iteration and the exception propagates.  Returns the ids of
the sinks whose `update` was invoked, in order, and whether the loop ran to
completion. -/
def notifyTrace : List Sink → String → List Nat × Bool
  | [], _ => ([], true)
  | o :: t, msg =>
    if o.ok msg then
      let r := notifyTrace t msg
      (o.id :: r.1, r.2)
    else ([o.id], false)

/-- The library aggregate: catalog, patron registry, librarian registry and
the append-only transaction log. -/
structure LibrarySystem where
  name : String
  items : List (String × Item)
  patrons : List (String × Patron)
  librarians : List (String × Librarian)
  transaction_log : List Transaction
deriving DecidableEq

/-- A freshly constructed `LibrarySystem(name)`. -/
def LibrarySystem.initial (nm : String) : LibrarySystem :=
  ⟨nm, [], [], [], []⟩

/-- `LibrarySystem.add_item`; the third component is the list of broadcast
messages (one `notify` call = one message). -/
def LibrarySystem.add_item (s : LibrarySystem) (it : Item) :
    Bool × LibrarySystem × List String :=
  if (dget s.items it.item_id).isSome then (false, s, [])
  else
    (true,
      { s with
        items := dinsert s.items it.item_id it,
        transaction_log := s.transaction_log ++ [Transaction.add_item it.item_id] },
      ["New item added: " ++ it.title])

/-- `LibrarySystem.remove_item`: fails on an unknown id or a checked-out
item. -/
def LibrarySystem.remove_item (s : LibrarySystem) (item_id : String) :
    Bool × LibrarySystem × List String :=
  match dget s.items item_id with
  | none => (false, s, [])
  | some it =>
    if it.checked_out then (false, s, [])
    else
      (true,
        { s with
          items := ddel s.items item_id,
          transaction_log := s.transaction_log ++ [Transaction.remove_item item_id] },
        ["Item removed: " ++ it.title])

/-- `LibrarySystem.register_patron`. -/
def LibrarySystem.register_patron (s : LibrarySystem) (p : Patron) :
    Bool × LibrarySystem × List String :=
  if (dget s.patrons p.person_id).isSome then (false, s, [])
  else
    (true,
      { s with
        patrons := dinsert s.patrons p.person_id p,
        transaction_log := s.transaction_log ++ [Transaction.register_patron p.person_id] },
      ["New patron registered: " ++ p.name])

/-- `LibrarySystem.add_librarian` (no broadcast). -/
def LibrarySystem.add_librarian (s : LibrarySystem) (l : Librarian) :
    Bool × LibrarySystem × List String :=
  if (dget s.librarians l.person_id).isSome then (false, s, [])
  else
    (true,
      { s with
        librarians := dinsert s.librarians l.person_id l,
        transaction_log := s.transaction_log ++ [Transaction.add_librarian l.person_id] },
      [])

/-- `LibrarySystem.check_out_item`: look up patron and item, delegate to
`Patron.borrow_item`; on success update both, log a `check_out` record and
broadcast one message naming the patron and the item. -/
def LibrarySystem.check_out_item (s : LibrarySystem) (patron_id item_id : String)
    (now : Int) (due_days : Int) : Bool × LibrarySystem × List String :=
  match dget s.patrons patron_id, dget s.items item_id with
  | some p, some it =>
    let r := p.borrow_item it now due_days
    if r.1 then
      (true,
        { s with
          patrons := dinsert s.patrons patron_id r.2.1,
          items := dinsert s.items item_id r.2.2,
          transaction_log :=
            s.transaction_log ++ [Transaction.check_out patron_id item_id due_days] },
        [p.name ++ " has borrowed: " ++ it.title])
    else (false, s, [])
  | _, _ => (false, s, [])

/-- The suffix appended to the return broadcast when the fee is nonzero.
The numeric dollars-and-cents formatting itself is not modelled; no claim
depends on the rendered digits. -/
def feeText (fine : ℚ) : String :=
  " with a late fee of " ++ toString fine.num ++ " quarter-days"

/-- `LibrarySystem.return_item`: look up patron and item, delegate to
`Patron.return_item`; on success update both, log a `return_item` record
with the fee and broadcast one message. -/
def LibrarySystem.return_item (s : LibrarySystem) (patron_id item_id : String)
    (now : Int) : (Bool × ℚ) × LibrarySystem × List String :=
  match dget s.patrons patron_id, dget s.items item_id with
  | some p, some it =>
    let r := p.return_item it now
    if r.1.1 then
      ((true, r.1.2),
        { s with
          patrons := dinsert s.patrons patron_id r.2.1,
          items := dinsert s.items item_id r.2.2,
          transaction_log :=
            s.transaction_log ++ [Transaction.return_item patron_id item_id r.1.2] },
        [p.name ++ " has returned: " ++ it.title ++
          (if 0 < r.1.2 then feeText r.1.2 else "")])
    else ((false, 0), s, [])
  | _, _ => ((false, 0), s, [])

/-- Fine payment through the registry: the public caller pattern
`system.get_patron(pid).pay_fine(amount)` — a lookup followed by
`Patron.pay_fine`, with the updated patron taking the place of the old one
(in Python the patron object is mutated in place). -/
def LibrarySystem.pay_fine (s : LibrarySystem) (patron_id : String) (amount : ℚ) :
    Bool × LibrarySystem :=
  match dget s.patrons patron_id with
  | none => (false, s)
  | some p =>
    let r := p.pay_fine amount
    (r.1, { s with patrons := dinsert s.patrons patron_id r.2 })

/-- One search criterion against one item, as `search_items` evaluates it:
the key `"checked_out"` compares the flag; otherwise a missing attribute is
a mismatch, two strings match by case-insensitive substring, and anything
else by exact equality. -/
def matchesCriterion (it : Item) (k : String) (v : AttrVal) : Bool :=
  if k = "checked_out" then AttrVal.bool it.checked_out == v
  else
    match it.getAttr k with
    | none => false
    | some iv =>
      match iv, v with
      | AttrVal.str s1, AttrVal.str s2 => substrB s2.toLower.data s1.toLower.data
      | _, _ => iv == v

/-- `LibrarySystem.search_items`: keep the catalog items (in catalog order)
matching every criterion. -/
def LibrarySystem.search_items (s : LibrarySystem) (crit : List (String × AttrVal)) :
    List Item :=
  (s.items.map Prod.snd).filter (fun it => crit.all (fun kv => matchesCriterion it kv.1 kv.2))

/-- `LibrarySystem.get_popular_items`: count `check_out` log records per item
id (one dict pass), pair each counted id still in the catalog with its count,
stable-sort by descending count and truncate to `limit`. -/
def LibrarySystem.get_popular_items (s : LibrarySystem) (limit : Nat) :
    List (Item × Nat) :=
  let checkout_counts := s.transaction_log.foldl
    (fun counts t =>
      match t with
      | Transaction.check_out _ iid _ => bump counts iid
      | _ => counts) []
  let popular := checkout_counts.filterMap
    (fun kc => (dget s.items kc.1).map (fun it => (it, kc.2)))
  (sortDesc (fun x => x.2) popular).take limit

/-- Spec-side restatement of the broadcast contract actually implemented:
sinks receive the message in subscription order up to and including the
first sink whose receive fails; a failure halts delivery to the sinks
subscribed after it; when no sink fails every sink receives the message. -/
def specTrace (obs : List Sink) (msg : String) : List Nat × Bool :=
  match obs.dropWhile (fun o => o.ok msg) with
  | [] => (obs.map Sink.id, true)
  | f :: _ => ((obs.takeWhile (fun o => o.ok msg)).map Sink.id ++ [f.id], false)

/-- Spec-side restatement of `most_borrowed(limit)`: count `check_out` log
entries per item id; for each distinct counted id, in first-encountered
order, that is still in the catalog, form the (item, count) pair; sort by
descending count with ties in that stable order; return the first `limit`. -/
def mostBorrowedSpec (s : LibrarySystem) (limit : Nat) : List (Item × Nat) :=
  let ids := s.transaction_log.filterMap Transaction.coItemId
  let pairs := (dedupFirst ids).filterMap
    (fun iid => (dget s.items iid).map (fun it => (it, ids.count iid)))
  (sortDesc (fun x => x.2) pairs).take limit

/-- Spec-side restatement of the search matcher: a `checked_out` criterion
compares the flag; an item lacking the named attribute is excluded; a
string-valued attribute matches a string criterion by case-insensitive
substring; every other combination matches by exact equality. -/
def specMatches (it : Item) (k : String) (v : AttrVal) : Bool :=
  if k = "checked_out" then v == AttrVal.bool it.checked_out
  else
    match it.getAttr k with
    | none => false
    | some (AttrVal.str s1) =>
      match v with
      | AttrVal.str s2 => substrB s2.toLower.data s1.toLower.data
      | _ => AttrVal.str s1 == v
    | some iv => iv == v

/-- A patron as `Patron(name, …)` constructs it: empty borrowed mapping,
zero fine. -/
def Patron.fresh (pid nm : String) : Patron :=
  ⟨pid, nm, [], 0⟩

/-- An item as the `LibraryItem` constructor produces it: not checked out. -/
def Item.fresh (iid title : String) (attrs : List (String × AttrVal)) : Item :=
  ⟨iid, title, false, attrs⟩

/-- The states reachable from a freshly constructed system by the public
operations.  Added items and registered patrons are as their constructors
produce them (`checked_out = false`, empty borrowed mapping, zero fine);
every operation that can fail folds its failure case into an unchanged
state, as the code does. -/
inductive Reachable : LibrarySystem → Prop where
  | init (nm : String) : Reachable (LibrarySystem.initial nm)
  | add_item {s} (iid title : String) (attrs : List (String × AttrVal)) :
      Reachable s → Reachable (s.add_item (Item.fresh iid title attrs)).2.1
  | remove_item {s} (iid : String) :
      Reachable s → Reachable (s.remove_item iid).2.1
  | register_patron {s} (pid nm : String) :
      Reachable s → Reachable (s.register_patron (Patron.fresh pid nm)).2.1
  | add_librarian {s} (lid : String) :
      Reachable s → Reachable (s.add_librarian ⟨lid⟩).2.1
  | check_out_item {s} (pid iid : String) (now due_days : Int) :
      Reachable s → Reachable (s.check_out_item pid iid now due_days).2.1
  | return_item {s} (pid iid : String) (now : Int) :
      Reachable s → Reachable (s.return_item pid iid now).2.1
  | pay_fine {s} (pid : String) (amount : ℚ) :
      Reachable s → Reachable (s.pay_fine pid amount).2

/-- Whether the patron `p` currently borrows item `iid`. -/
def Patron.borrows (p : Patron) (iid : String) : Bool :=
  (dget p.borrowed_items iid).isSome

/-- How many registered patrons currently have `iid` in their borrowed
mapping. -/
def borrowerCount (s : LibrarySystem) (iid : String) : Nat :=
  s.patrons.countP (fun kp => kp.2.borrows iid)

/-- The system invariant carried through the reachability induction. -/
structure SysInv (s : LibrarySystem) : Prop where
  items_nodup : (keys s.items).Nodup
  items_key : ∀ kv ∈ s.items, kv.1 = kv.2.item_id
  patrons_nodup : (keys s.patrons).Nodup
  borrowed_in_catalog : ∀ kv ∈ s.patrons, ∀ e ∈ kv.2.borrowed_items,
    ∃ it, dget s.items e.1 = some it ∧ it.checked_out = true
  count_le_one : ∀ iid, borrowerCount s iid ≤ 1
  flag_iff : ∀ kv ∈ s.items, (kv.2.checked_out = true ↔ borrowerCount s kv.2.item_id = 1)

/-! ## Association-list lemmas -/

theorem keys_cons {α : Type} (k0 : String) (v0 : α) (t : List (String × α)) :
    keys ((k0, v0) :: t) = k0 :: keys t := rfl

theorem keys_append {α : Type} (l1 l2 : List (String × α)) :
    keys (l1 ++ l2) = keys l1 ++ keys l2 := by
  simp [keys]

theorem ddel_cons {α : Type} (k0 : String) (v0 : α) (t : List (String × α)) (k : String) :
    ddel ((k0, v0) :: t) k = if k0 = k then ddel t k else (k0, v0) :: ddel t k := by
  by_cases h : k0 = k <;> simp [ddel, List.filter_cons, h]

theorem dget_dinsert_self {α : Type} (l : List (String × α)) (k : String) (v : α) :
    dget (dinsert l k v) k = some v := by
  induction l with
  | nil => simp [dinsert, dget]
  | cons e t ih =>
    obtain ⟨k0, v0⟩ := e
    by_cases h : k0 = k <;> simp [dinsert, dget, h, ih]

theorem dget_dinsert_ne {α : Type} (l : List (String × α)) (k q : String) (v : α)
    (h : k ≠ q) : dget (dinsert l k v) q = dget l q := by
  induction l with
  | nil => simp [dinsert, dget, h]
  | cons e t ih =>
    obtain ⟨k0, v0⟩ := e
    by_cases h0 : k0 = k
    · subst h0
      simp [dinsert, dget, h]
    · simp [dinsert, dget, h0, ih]

theorem dinsert_self {α : Type} (l : List (String × α)) (k : String) (v : α)
    (h : dget l k = some v) : dinsert l k v = l := by
  induction l with
  | nil => simp [dget] at h
  | cons e t ih =>
    obtain ⟨k0, v0⟩ := e
    by_cases h0 : k0 = k
    · subst h0
      simp [dget] at h
      simp [dinsert, h]
    · simp [dget, h0] at h
      simp [dinsert, h0, ih h]

theorem dget_eq_none_iff {α : Type} (l : List (String × α)) (k : String) :
    dget l k = none ↔ k ∉ keys l := by
  induction l with
  | nil => simp [dget, keys]
  | cons e t ih =>
    obtain ⟨k0, v0⟩ := e
    rw [keys_cons]
    by_cases h0 : k0 = k
    · subst h0
      simp [dget]
    · simp only [dget, h0, if_false, ih, List.mem_cons]
      constructor
      · intro hnt hor
        rcases hor with he | hm
        · exact h0 he.symm
        · exact hnt hm
      · intro hn hm
        exact hn (Or.inr hm)

theorem dinsert_absent {α : Type} (l : List (String × α)) (k : String) (v : α)
    (h : dget l k = none) : dinsert l k v = l ++ [(k, v)] := by
  induction l with
  | nil => simp [dinsert]
  | cons e t ih =>
    obtain ⟨k0, v0⟩ := e
    by_cases h0 : k0 = k
    · subst h0
      simp [dget] at h
    · simp [dget, h0] at h
      simp [dinsert, h0, ih h]

theorem keys_dinsert_present {α : Type} (l : List (String × α)) (k : String) (v : α)
    (h : (dget l k).isSome) : keys (dinsert l k v) = keys l := by
  induction l with
  | nil => simp [dget] at h
  | cons e t ih =>
    obtain ⟨k0, v0⟩ := e
    by_cases h0 : k0 = k
    · simp [dinsert, h0, keys_cons]
    · simp only [dget, h0, if_false] at h
      simp only [dinsert, h0, if_false, keys_cons, ih h]

theorem dget_ddel_self {α : Type} (l : List (String × α)) (k : String) :
    dget (ddel l k) k = none := by
  induction l with
  | nil => simp [ddel, dget]
  | cons e t ih =>
    obtain ⟨k0, v0⟩ := e
    rw [ddel_cons]
    by_cases h0 : k0 = k
    · simpa [h0] using ih
    · simpa [h0, dget] using ih

theorem dget_ddel_ne {α : Type} (l : List (String × α)) (k q : String)
    (h : q ≠ k) : dget (ddel l k) q = dget l q := by
  induction l with
  | nil => simp [ddel, dget]
  | cons e t ih =>
    obtain ⟨k0, v0⟩ := e
    rw [ddel_cons]
    by_cases h0 : k0 = k
    · subst h0
      have hne : k0 ≠ q := fun he => h he.symm
      simpa [dget, hne] using ih
    · by_cases hq : k0 = q
      · subst hq
        simp [dget, h0]
      · simp [dget, h0, hq, ih]

theorem keys_ddel {α : Type} (l : List (String × α)) (k : String) :
    keys (ddel l k) = (keys l).filter (fun y => decide (y ≠ k)) := by
  induction l with
  | nil => simp [ddel, keys]
  | cons e t ih =>
    obtain ⟨k0, v0⟩ := e
    rw [ddel_cons, keys_cons]
    by_cases h0 : k0 = k
    · simp [h0, List.filter_cons, ih]
    · simp [h0, List.filter_cons, keys_cons, ih]

theorem dget_mem {α : Type} {l : List (String × α)} {k : String} {v : α}
    (h : dget l k = some v) : (k, v) ∈ l := by
  induction l with
  | nil => simp [dget] at h
  | cons e t ih =>
    obtain ⟨k0, v0⟩ := e
    by_cases h0 : k0 = k
    · subst h0
      simp [dget] at h
      simp [h]
    · simp [dget, h0] at h
      simp [ih h]

theorem mem_keys_of_mem {α : Type} {l : List (String × α)} {e : String × α}
    (h : e ∈ l) : e.1 ∈ keys l := by
  simp only [keys, List.mem_map]
  exact ⟨e, h, rfl⟩

theorem mem_dget {α : Type} {l : List (String × α)} {k : String} {v : α}
    (hnd : (keys l).Nodup) (h : (k, v) ∈ l) : dget l k = some v := by
  induction l with
  | nil => simp at h
  | cons e t ih =>
    obtain ⟨k0, v0⟩ := e
    rw [keys_cons] at hnd
    rcases List.mem_cons.mp h with h1 | h1
    · simp only [Prod.mk.injEq] at h1
      obtain ⟨hk, hv⟩ := h1
      subst hk
      subst hv
      simp [dget]
    · by_cases h0 : k0 = k
      · subst h0
        exact absurd (mem_keys_of_mem h1) ((List.nodup_cons.mp hnd).1)
      · simp only [dget, h0, if_false]
        exact ih (List.nodup_cons.mp hnd).2 h1

theorem mem_dinsert_of_mem_ne {α : Type} {l : List (String × α)} {e : String × α}
    (k : String) (v : α) (hm : e ∈ l) (hne : e.1 ≠ k) : e ∈ dinsert l k v := by
  induction l with
  | nil => simp at hm
  | cons e0 t ih =>
    obtain ⟨k0, v0⟩ := e0
    by_cases h0 : k0 = k
    · subst h0
      rcases List.mem_cons.mp hm with h1 | h1
      · exact absurd (by simp [h1]) hne
      · simp [dinsert, h1]
    · rcases List.mem_cons.mp hm with h1 | h1
      · simp [dinsert, h0, h1]
      · simp only [dinsert, h0, if_false, List.mem_cons]
        exact Or.inr (ih h1)

theorem mem_dinsert {α : Type} {l : List (String × α)} {e : String × α}
    {k : String} {v : α} (hnd : (keys l).Nodup) (h : e ∈ dinsert l k v) :
    e = (k, v) ∨ (e ∈ l ∧ e.1 ≠ k) := by
  induction l with
  | nil =>
    simp [dinsert] at h
    exact Or.inl h
  | cons e0 t ih =>
    obtain ⟨k0, v0⟩ := e0
    rw [keys_cons] at hnd
    by_cases h0 : k0 = k
    · subst h0
      simp [dinsert] at h
      rcases h with h1 | h1
      · exact Or.inl h1
      · refine Or.inr ⟨List.mem_cons_of_mem _ h1, ?_⟩
        intro he
        exact (List.nodup_cons.mp hnd).1 (he ▸ mem_keys_of_mem h1)
    · simp only [dinsert, h0, if_false, List.mem_cons] at h
      rcases h with h1 | h1
      · refine Or.inr ⟨by simp [h1], ?_⟩
        rw [h1]
        exact h0
      · rcases ih (List.nodup_cons.mp hnd).2 h1 with h2 | h2
        · exact Or.inl h2
        · exact Or.inr ⟨List.mem_cons_of_mem _ h2.1, h2.2⟩

theorem countP_dinsert {α : Type} (g : String × α → Bool) {l : List (String × α)}
    {k : String} {v : α} (hnd : (keys l).Nodup) (h : dget l k = some v) (w : α) :
    (dinsert l k w).countP g + (if g (k, v) then 1 else 0) =
      l.countP g + (if g (k, w) then 1 else 0) := by
  induction l with
  | nil => simp [dget] at h
  | cons e t ih =>
    obtain ⟨k0, v0⟩ := e
    rw [keys_cons] at hnd
    by_cases h0 : k0 = k
    · subst h0
      simp only [dget, if_true, eq_self_iff_true, Option.some.injEq] at h
      subst h
      simp [dinsert, List.countP_cons]
      omega
    · simp only [dget, h0, if_false] at h
      have hrec := ih (List.nodup_cons.mp hnd).2 h
      simp only [dinsert, h0, if_false, List.countP_cons]
      omega

/-! ## Invariant preservation -/

theorem nodup_append_singleton {a : String} {l : List String}
    (h : l.Nodup) (ha : a ∉ l) : (l ++ [a]).Nodup := by
  rw [List.nodup_append]
  refine ⟨h, List.nodup_singleton a, ?_⟩
  intro x hx hxa
  simp at hxa
  subst hxa
  exact ha hx

/-- If no catalog entry exists for `iid`, no patron can be borrowing it
(given the borrowed-ids-in-catalog invariant). -/
theorem borrowerCount_eq_zero_of_absent {s : LibrarySystem}
    (h4 : ∀ kv ∈ s.patrons, ∀ e ∈ kv.2.borrowed_items,
      ∃ it, dget s.items e.1 = some it ∧ it.checked_out = true)
    {iid : String} (hnone : dget s.items iid = none) :
    borrowerCount s iid = 0 := by
  rw [borrowerCount, List.countP_eq_zero]
  intro kp hkp
  simp only [Patron.borrows]
  cases hd : dget kp.2.borrowed_items iid with
  | none => simp
  | some due =>
    obtain ⟨it2, hit2, _⟩ := h4 kp hkp (iid, due) (dget_mem hd)
    rw [hnone] at hit2
    cases hit2

theorem borrowerCount_congr {s s2 : LibrarySystem} (h : s2.patrons = s.patrons)
    (iid : String) : borrowerCount s2 iid = borrowerCount s iid := by
  rw [borrowerCount, borrowerCount, h]

theorem sysInv_add_item (s : LibrarySystem) (iid title : String)
    (attrs : List (String × AttrVal)) (hI : SysInv s) :
    SysInv (s.add_item (Item.fresh iid title attrs)).2.1 := by
  cases hd : dget s.items iid with
  | some it0 => simpa [LibrarySystem.add_item, Item.fresh, hd] using hI
  | none =>
    have hnk : iid ∉ keys s.items := (dget_eq_none_iff s.items iid).mp hd
    have hins : dinsert s.items iid (Item.fresh iid title attrs)
        = s.items ++ [(iid, Item.fresh iid title attrs)] :=
      dinsert_absent _ _ _ hd
    have hstate : (s.add_item (Item.fresh iid title attrs)).2.1 =
        { s with items := dinsert s.items iid (Item.fresh iid title attrs),
                 transaction_log := s.transaction_log ++ [Transaction.add_item iid] } := by
      simp [LibrarySystem.add_item, Item.fresh, hd]
    rw [hstate]
    constructor
    case items_nodup =>
      show (keys (dinsert s.items iid (Item.fresh iid title attrs))).Nodup
      rw [hins, keys_append, keys_cons]
      exact nodup_append_singleton hI.items_nodup hnk
    case items_key =>
      show ∀ kv ∈ dinsert s.items iid (Item.fresh iid title attrs), kv.1 = kv.2.item_id
      intro kv hkv
      rw [hins] at hkv
      rcases List.mem_append.mp hkv with h1 | h1
      · exact hI.items_key kv h1
      · simp at h1
        simp [h1, Item.fresh]
    case patrons_nodup => exact hI.patrons_nodup
    case borrowed_in_catalog =>
      show ∀ kv ∈ s.patrons, ∀ e ∈ kv.2.borrowed_items,
        ∃ it, dget (dinsert s.items iid (Item.fresh iid title attrs)) e.1 = some it ∧
          it.checked_out = true
      intro kv hkv e he
      obtain ⟨it2, hit2, hco2⟩ := hI.borrowed_in_catalog kv hkv e he
      refine ⟨it2, ?_, hco2⟩
      have hne : iid ≠ e.1 := by
        intro hee
        rw [← hee, hd] at hit2
        cases hit2
      rw [dget_dinsert_ne _ _ _ _ hne]
      exact hit2
    case count_le_one => exact hI.count_le_one
    case flag_iff =>
      show ∀ kv ∈ dinsert s.items iid (Item.fresh iid title attrs),
        kv.2.checked_out = true ↔ borrowerCount s kv.2.item_id = 1
      intro kv hkv
      rw [hins] at hkv
      rcases List.mem_append.mp hkv with h1 | h1
      · exact hI.flag_iff kv h1
      · simp at h1
        have hz : borrowerCount s iid = 0 :=
          borrowerCount_eq_zero_of_absent hI.borrowed_in_catalog hd
        rw [h1]
        simp [Item.fresh, hz]

theorem sysInv_remove_item (s : LibrarySystem) (iid : String) (hI : SysInv s) :
    SysInv (s.remove_item iid).2.1 := by
  cases hd : dget s.items iid with
  | none => simpa [LibrarySystem.remove_item, hd] using hI
  | some it =>
    by_cases hco : it.checked_out
    · simpa [LibrarySystem.remove_item, hd, hco] using hI
    · have hstate : (s.remove_item iid).2.1 =
          { s with items := ddel s.items iid,
                   transaction_log := s.transaction_log ++ [Transaction.remove_item iid] } := by
        simp [LibrarySystem.remove_item, hd, hco]
      rw [hstate]
      refine ⟨?_, ?_, hI.patrons_nodup, ?_, hI.count_le_one, ?_⟩
      · show (keys (ddel s.items iid)).Nodup
        rw [keys_ddel]
        exact hI.items_nodup.filter _
      · show ∀ kv ∈ ddel s.items iid, kv.1 = kv.2.item_id
        intro kv hkv
        exact hI.items_key kv (List.mem_of_mem_filter hkv)
      · show ∀ kv ∈ s.patrons, ∀ e ∈ kv.2.borrowed_items,
          ∃ it2, dget (ddel s.items iid) e.1 = some it2 ∧ it2.checked_out = true
        intro kv hkv e he
        obtain ⟨it2, hit2, hco2⟩ := hI.borrowed_in_catalog kv hkv e he
        refine ⟨it2, ?_, hco2⟩
        have hne : e.1 ≠ iid := by
          intro hee
          rw [hee, hd] at hit2
          injection hit2 with hit2e
          rw [hit2e] at hco
          exact hco hco2
        rw [dget_ddel_ne _ _ _ hne]
        exact hit2
      · show ∀ kv ∈ ddel s.items iid,
          kv.2.checked_out = true ↔ borrowerCount s kv.2.item_id = 1
        intro kv hkv
        exact hI.flag_iff kv (List.mem_of_mem_filter hkv)

theorem sysInv_register_patron (s : LibrarySystem) (pid nm : String) (hI : SysInv s) :
    SysInv (s.register_patron (Patron.fresh pid nm)).2.1 := by
  cases hd : dget s.patrons pid with
  | some p0 => simpa [LibrarySystem.register_patron, Patron.fresh, hd] using hI
  | none =>
    have hnk : pid ∉ keys s.patrons := (dget_eq_none_iff s.patrons pid).mp hd
    have hins : dinsert s.patrons pid (Patron.fresh pid nm)
        = s.patrons ++ [(pid, Patron.fresh pid nm)] :=
      dinsert_absent _ _ _ hd
    have hstate : (s.register_patron (Patron.fresh pid nm)).2.1 =
        { s with patrons := dinsert s.patrons pid (Patron.fresh pid nm),
                 transaction_log := s.transaction_log ++ [Transaction.register_patron pid] } := by
      simp [LibrarySystem.register_patron, Patron.fresh, hd]
    have hcnt : ∀ jid, List.countP (fun kp => kp.2.borrows jid)
        (dinsert s.patrons pid (Patron.fresh pid nm)) = borrowerCount s jid := by
      intro jid
      rw [hins, List.countP_append, borrowerCount]
      simp [Patron.fresh, Patron.borrows, dget]
    rw [hstate]
    constructor
    case items_nodup => exact hI.items_nodup
    case items_key => exact hI.items_key
    case patrons_nodup =>
      show (keys (dinsert s.patrons pid (Patron.fresh pid nm))).Nodup
      rw [hins, keys_append, keys_cons]
      exact nodup_append_singleton hI.patrons_nodup hnk
    case borrowed_in_catalog =>
      show ∀ kv ∈ dinsert s.patrons pid (Patron.fresh pid nm), ∀ e ∈ kv.2.borrowed_items,
        ∃ it, dget s.items e.1 = some it ∧ it.checked_out = true
      intro kv hkv e he
      rw [hins] at hkv
      rcases List.mem_append.mp hkv with h1 | h1
      · exact hI.borrowed_in_catalog kv h1 e he
      · simp at h1
        rw [h1] at he
        simp [Patron.fresh] at he
    case count_le_one =>
      show ∀ jid, List.countP (fun kp => kp.2.borrows jid)
        (dinsert s.patrons pid (Patron.fresh pid nm)) ≤ 1
      intro jid
      rw [hcnt jid]
      exact hI.count_le_one jid
    case flag_iff =>
      show ∀ kv ∈ s.items, kv.2.checked_out = true ↔
        List.countP (fun kp => kp.2.borrows kv.2.item_id)
          (dinsert s.patrons pid (Patron.fresh pid nm)) = 1
      intro kv hkv
      rw [hcnt kv.2.item_id]
      exact hI.flag_iff kv hkv

theorem sysInv_add_librarian (s : LibrarySystem) (lid : String) (hI : SysInv s) :
    SysInv (s.add_librarian ⟨lid⟩).2.1 := by
  cases hd : dget s.librarians lid with
  | some l0 => simpa [LibrarySystem.add_librarian, hd] using hI
  | none =>
    have hstate : (s.add_librarian ⟨lid⟩).2.1 =
        { s with librarians := dinsert s.librarians lid ⟨lid⟩,
                 transaction_log := s.transaction_log ++ [Transaction.add_librarian lid] } := by
      simp [LibrarySystem.add_librarian, hd]
    rw [hstate]
    exact ⟨hI.items_nodup, hI.items_key, hI.patrons_nodup, hI.borrowed_in_catalog,
      hI.count_le_one, hI.flag_iff⟩

theorem mem_dinsert_weak {α : Type} {l : List (String × α)} {e : String × α}
    {k : String} {v : α} (h : e ∈ dinsert l k v) : e = (k, v) ∨ e ∈ l := by
  induction l with
  | nil =>
    simp [dinsert] at h
    exact Or.inl h
  | cons e0 t ih =>
    obtain ⟨k0, v0⟩ := e0
    by_cases h0 : k0 = k
    · subst h0
      simp [dinsert] at h
      rcases h with h1 | h1
      · exact Or.inl h1
      · exact Or.inr (List.mem_cons_of_mem _ h1)
    · simp only [dinsert, h0, if_false, List.mem_cons] at h
      rcases h with h1 | h1
      · exact Or.inr (by simp [h1])
      · rcases ih h1 with h2 | h2
        · exact Or.inl h2
        · exact Or.inr (List.mem_cons_of_mem _ h2)

/-- Core invariant step for a successful checkout: patron `pid` gains the
borrowed entry for `it.item_id`, the item is flagged, the log may change. -/
theorem sysInv_checkout_core (s : LibrarySystem) (pid iid : String) (p : Patron)
    (it : Item) (due : Int) (log2 : List Transaction) (hI : SysInv s)
    (hp : dget s.patrons pid = some p) (hit : dget s.items iid = some it)
    (hco : it.checked_out = false)
    (hnbn : dget p.borrowed_items it.item_id = none) :
    SysInv { s with
      patrons := dinsert s.patrons pid
        { p with borrowed_items := dinsert p.borrowed_items it.item_id due },
      items := dinsert s.items iid { it with checked_out := true },
      transaction_log := log2 } := by
  have himem : (iid, it) ∈ s.items := dget_mem hit
  have hkeyi : iid = it.item_id := hI.items_key (iid, it) himem
  have hz : borrowerCount s it.item_id = 0 := by
    have h1 := hI.flag_iff (iid, it) himem
    have h2 := hI.count_le_one it.item_id
    simp only [hco, Bool.false_eq_true, false_iff] at h1
    omega
  have hkey_eq : ∀ jid, List.countP (fun kp => kp.2.borrows jid)
      (dinsert s.patrons pid
        { p with borrowed_items := dinsert p.borrowed_items it.item_id due })
      + (if p.borrows jid then 1 else 0)
      = borrowerCount s jid
      + (if Patron.borrows
          { p with borrowed_items := dinsert p.borrowed_items it.item_id due } jid
          then 1 else 0) :=
    fun jid => countP_dinsert _ hI.patrons_nodup hp _
  have hbor_self : Patron.borrows
      { p with borrowed_items := dinsert p.borrowed_items it.item_id due }
      it.item_id = true := by
    simp [Patron.borrows, dget_dinsert_self]
  have hpx : p.borrows it.item_id = false := by
    simp [Patron.borrows, hnbn]
  have hbor_ne : ∀ jid, jid ≠ it.item_id → Patron.borrows
      { p with borrowed_items := dinsert p.borrowed_items it.item_id due } jid
      = p.borrows jid := by
    intro jid hne
    simp [Patron.borrows, dget_dinsert_ne _ _ _ _ (fun he => hne he.symm)]
  have hcnt_self : List.countP (fun kp => kp.2.borrows it.item_id)
      (dinsert s.patrons pid
        { p with borrowed_items := dinsert p.borrowed_items it.item_id due }) = 1 := by
    have := hkey_eq it.item_id
    rw [hbor_self, hpx] at this
    simp at this
    omega
  have hcnt_ne : ∀ jid, jid ≠ it.item_id → List.countP (fun kp => kp.2.borrows jid)
      (dinsert s.patrons pid
        { p with borrowed_items := dinsert p.borrowed_items it.item_id due })
      = borrowerCount s jid := by
    intro jid hne
    have := hkey_eq jid
    rw [hbor_ne jid hne] at this
    omega
  refine ⟨?_, ?_, ?_, ?_, ?_, ?_⟩
  · show (keys (dinsert s.items iid { it with checked_out := true })).Nodup
    rw [keys_dinsert_present _ _ _ (by rw [hit]; rfl)]
    exact hI.items_nodup
  · show ∀ kv ∈ dinsert s.items iid { it with checked_out := true }, kv.1 = kv.2.item_id
    intro kv hkv
    rcases mem_dinsert hI.items_nodup hkv with h1 | h1
    · rw [h1]
      exact hkeyi
    · exact hI.items_key kv h1.1
  · show (keys (dinsert s.patrons pid
      { p with borrowed_items := dinsert p.borrowed_items it.item_id due })).Nodup
    rw [keys_dinsert_present _ _ _ (by rw [hp]; rfl)]
    exact hI.patrons_nodup
  · show ∀ kv ∈ dinsert s.patrons pid
      { p with borrowed_items := dinsert p.borrowed_items it.item_id due },
      ∀ e ∈ kv.2.borrowed_items,
      ∃ it2, dget (dinsert s.items iid { it with checked_out := true }) e.1 = some it2 ∧
        it2.checked_out = true
    intro kv hkv e he
    by_cases he1 : e.1 = iid
    · refine ⟨{ it with checked_out := true }, ?_, rfl⟩
      rw [he1]
      exact dget_dinsert_self _ _ _
    · have hold : ∃ it2, dget s.items e.1 = some it2 ∧ it2.checked_out = true := by
        rcases mem_dinsert hI.patrons_nodup hkv with h1 | h1
        · rw [h1] at he
          have he2 := he
          simp only at he2
          rcases mem_dinsert_weak he2 with h2 | h2
          · exfalso
            apply he1
            rw [h2]
            exact hkeyi.symm
          · exact hI.borrowed_in_catalog (pid, p) (dget_mem hp) e h2
        · exact hI.borrowed_in_catalog kv h1.1 e he
      obtain ⟨it2, hit2, hco2⟩ := hold
      refine ⟨it2, ?_, hco2⟩
      rw [dget_dinsert_ne _ _ _ _ (fun hx => he1 hx.symm)]
      exact hit2
  · show ∀ jid, List.countP (fun kp => kp.2.borrows jid)
      (dinsert s.patrons pid
        { p with borrowed_items := dinsert p.borrowed_items it.item_id due }) ≤ 1
    intro jid
    by_cases hj : jid = it.item_id
    · rw [hj, hcnt_self]
    · rw [hcnt_ne jid hj]
      exact hI.count_le_one jid
  · show ∀ kv ∈ dinsert s.items iid { it with checked_out := true },
      kv.2.checked_out = true ↔ List.countP (fun kp => kp.2.borrows kv.2.item_id)
        (dinsert s.patrons pid
          { p with borrowed_items := dinsert p.borrowed_items it.item_id due }) = 1
    intro kv hkv
    rcases mem_dinsert hI.items_nodup hkv with h1 | h1
    · rw [h1]
      simp [hcnt_self]
    · have hkvkey : kv.1 = kv.2.item_id := hI.items_key kv h1.1
      have hne : kv.2.item_id ≠ it.item_id := by
        rw [← hkvkey]
        rw [hkeyi] at h1
        exact h1.2
      rw [hcnt_ne kv.2.item_id hne]
      exact hI.flag_iff kv h1.1

theorem sysInv_check_out_item (s : LibrarySystem) (pid iid : String)
    (now due_days : Int) (hI : SysInv s) :
    SysInv (s.check_out_item pid iid now due_days).2.1 := by
  cases hp : dget s.patrons pid with
  | none => simpa [LibrarySystem.check_out_item, hp] using hI
  | some p =>
    cases hit : dget s.items iid with
    | none => simpa [LibrarySystem.check_out_item, hp, hit] using hI
    | some it =>
      by_cases hco : it.checked_out
      · have hbr : p.borrow_item it now due_days = (false, p, it) := by
          simp [Patron.borrow_item, hco]
        simpa [LibrarySystem.check_out_item, hp, hit, hbr] using hI
      · by_cases hnb : (dget p.borrowed_items it.item_id).isSome
        · have hbr : p.borrow_item it now due_days = (false, p, it) := by
            simp [Patron.borrow_item, hnb]
          simpa [LibrarySystem.check_out_item, hp, hit, hbr] using hI
        · have hnbn : dget p.borrowed_items it.item_id = none :=
            Option.not_isSome_iff_eq_none.mp hnb
          have hcof : it.checked_out = false := by simpa using hco
          have hbr : p.borrow_item it now due_days =
              (true,
                { p with borrowed_items :=
                    dinsert p.borrowed_items it.item_id (now + due_days * secPerDay) },
                { it with checked_out := true }) := by
            simp [Patron.borrow_item, hcof, hnbn, Item.check_out]
          have hstate : (s.check_out_item pid iid now due_days).2.1 =
              { s with
                patrons := dinsert s.patrons pid
                  { p with borrowed_items :=
                      dinsert p.borrowed_items it.item_id (now + due_days * secPerDay) },
                items := dinsert s.items iid { it with checked_out := true },
                transaction_log :=
                  s.transaction_log ++ [Transaction.check_out pid iid due_days] } := by
            simp [LibrarySystem.check_out_item, hp, hit, hbr]
          rw [hstate]
          exact sysInv_checkout_core s pid iid p it _ _ hI hp hit hcof hnbn

/-- Core invariant step for a successful return: patron `pid` becomes `p2`,
whose borrowed mapping is the old one minus `it.item_id`; the item is
unflagged; the log may change.  (`p2` is otherwise arbitrary because the
invariant does not constrain names or fines.) -/
theorem sysInv_return_core (s : LibrarySystem) (pid iid : String) (p p2 : Patron)
    (it : Item) (log2 : List Transaction) (hI : SysInv s)
    (hp : dget s.patrons pid = some p) (hit : dget s.items iid = some it)
    (hbd : (dget p.borrowed_items it.item_id).isSome)
    (hp2 : p2.borrowed_items = ddel p.borrowed_items it.item_id) :
    SysInv { s with
      patrons := dinsert s.patrons pid p2,
      items := dinsert s.items iid { it with checked_out := false },
      transaction_log := log2 } := by
  have himem : (iid, it) ∈ s.items := dget_mem hit
  have hkeyi : iid = it.item_id := hI.items_key (iid, it) himem
  obtain ⟨due, hdue⟩ := Option.isSome_iff_exists.mp hbd
  have hco : it.checked_out = true := by
    obtain ⟨it2, hit2, hco2⟩ :=
      hI.borrowed_in_catalog (pid, p) (dget_mem hp) (it.item_id, due) (dget_mem hdue)
    rw [← hkeyi, hit] at hit2
    injection hit2 with h2
    rw [h2]
    exact hco2
  have hone : borrowerCount s it.item_id = 1 := by
    have h1 := hI.flag_iff (iid, it) himem
    simp only [hco, true_iff] at h1
    exact h1
  have hkey_eq : ∀ jid, List.countP (fun kp => kp.2.borrows jid)
      (dinsert s.patrons pid p2)
      + (if p.borrows jid then 1 else 0)
      = borrowerCount s jid + (if p2.borrows jid then 1 else 0) :=
    fun jid => countP_dinsert _ hI.patrons_nodup hp _
  have hpb : p.borrows it.item_id = true := by
    simp [Patron.borrows, hdue]
  have hp2b : p2.borrows it.item_id = false := by
    simp [Patron.borrows, hp2, dget_ddel_self]
  have hbor_ne : ∀ jid, jid ≠ it.item_id → p2.borrows jid = p.borrows jid := by
    intro jid hne
    simp [Patron.borrows, hp2, dget_ddel_ne _ _ _ hne]
  have hcnt_self : List.countP (fun kp => kp.2.borrows it.item_id)
      (dinsert s.patrons pid p2) = 0 := by
    have := hkey_eq it.item_id
    rw [hpb, hp2b] at this
    simp at this
    omega
  have hcnt_ne : ∀ jid, jid ≠ it.item_id → List.countP (fun kp => kp.2.borrows jid)
      (dinsert s.patrons pid p2) = borrowerCount s jid := by
    intro jid hne
    have := hkey_eq jid
    rw [hbor_ne jid hne] at this
    omega
  have hnotb : ∀ kv ∈ dinsert s.patrons pid p2, ∀ e ∈ kv.2.borrowed_items,
      e.1 ≠ it.item_id := by
    intro kv hkv e he hee
    have hz := (List.countP_eq_zero.mp hcnt_self) kv hkv
    have hznone : dget kv.2.borrowed_items it.item_id = none := by
      cases hdg : dget kv.2.borrowed_items it.item_id with
      | none => rfl
      | some d =>
        exfalso
        exact hz (by simp [Patron.borrows, hdg])
    have hmem : it.item_id ∈ keys kv.2.borrowed_items := by
      rw [← hee]
      exact mem_keys_of_mem he
    exact (dget_eq_none_iff _ _).mp hznone hmem
  refine ⟨?_, ?_, ?_, ?_, ?_, ?_⟩
  · show (keys (dinsert s.items iid { it with checked_out := false })).Nodup
    rw [keys_dinsert_present _ _ _ (by rw [hit]; rfl)]
    exact hI.items_nodup
  · show ∀ kv ∈ dinsert s.items iid { it with checked_out := false }, kv.1 = kv.2.item_id
    intro kv hkv
    rcases mem_dinsert hI.items_nodup hkv with h1 | h1
    · rw [h1]
      exact hkeyi
    · exact hI.items_key kv h1.1
  · show (keys (dinsert s.patrons pid p2)).Nodup
    rw [keys_dinsert_present _ _ _ (by rw [hp]; rfl)]
    exact hI.patrons_nodup
  · show ∀ kv ∈ dinsert s.patrons pid p2, ∀ e ∈ kv.2.borrowed_items,
      ∃ it2, dget (dinsert s.items iid { it with checked_out := false }) e.1 = some it2 ∧
        it2.checked_out = true
    intro kv hkv e he
    have hne : e.1 ≠ it.item_id := hnotb kv hkv e he
    have hnei : e.1 ≠ iid := by
      rw [hkeyi]
      exact hne
    have hold : ∃ it2, dget s.items e.1 = some it2 ∧ it2.checked_out = true := by
      rcases mem_dinsert hI.patrons_nodup hkv with h1 | h1
      · rw [h1] at he
        rw [hp2] at he
        exact hI.borrowed_in_catalog (pid, p) (dget_mem hp) e (List.mem_of_mem_filter he)
      · exact hI.borrowed_in_catalog kv h1.1 e he
    obtain ⟨it2, hit2, hco2⟩ := hold
    refine ⟨it2, ?_, hco2⟩
    rw [dget_dinsert_ne _ _ _ _ (fun hx => hnei hx.symm)]
    exact hit2
  · show ∀ jid, List.countP (fun kp => kp.2.borrows jid)
      (dinsert s.patrons pid p2) ≤ 1
    intro jid
    by_cases hj : jid = it.item_id
    · rw [hj, hcnt_self]
      omega
    · rw [hcnt_ne jid hj]
      exact hI.count_le_one jid
  · show ∀ kv ∈ dinsert s.items iid { it with checked_out := false },
      kv.2.checked_out = true ↔ List.countP (fun kp => kp.2.borrows kv.2.item_id)
        (dinsert s.patrons pid p2) = 1
    intro kv hkv
    rcases mem_dinsert hI.items_nodup hkv with h1 | h1
    · rw [h1]
      simp [hcnt_self]
    · have hkvkey : kv.1 = kv.2.item_id := hI.items_key kv h1.1
      have hne : kv.2.item_id ≠ it.item_id := by
        rw [← hkvkey]
        rw [hkeyi] at h1
        exact h1.2
      rw [hcnt_ne kv.2.item_id hne]
      exact hI.flag_iff kv h1.1

theorem sysInv_return_item (s : LibrarySystem) (pid iid : String) (now : Int)
    (hI : SysInv s) : SysInv (s.return_item pid iid now).2.1 := by
  cases hp : dget s.patrons pid with
  | none => simpa [LibrarySystem.return_item, hp] using hI
  | some p =>
    cases hit : dget s.items iid with
    | none => simpa [LibrarySystem.return_item, hp, hit] using hI
    | some it =>
      cases hdue : dget p.borrowed_items it.item_id with
      | none =>
        have hret : p.return_item it now = ((false, 0), p, it) := by
          simp [Patron.return_item, hdue]
        simpa [LibrarySystem.return_item, hp, hit, hret] using hI
      | some due =>
        have hbd : (dget p.borrowed_items it.item_id).isSome := by
          rw [hdue]
          rfl
        have hco : it.checked_out = true := by
          obtain ⟨it2, hit2, hco2⟩ := hI.borrowed_in_catalog (pid, p) (dget_mem hp)
            (it.item_id, due) (dget_mem hdue)
          have hkeyi : iid = it.item_id := hI.items_key (iid, it) (dget_mem hit)
          rw [← hkeyi, hit] at hit2
          injection hit2 with h2
          rw [h2]
          exact hco2
        by_cases hlate : due < now
        · have hret : p.return_item it now =
              ((true, (((now - due) / secPerDay : Int) : ℚ) * (1 / 4)),
                { p with borrowed_items := ddel p.borrowed_items it.item_id,
                         fine_amount := p.fine_amount +
                           (((now - due) / secPerDay : Int) : ℚ) * (1 / 4) },
                { it with checked_out := false }) := by
            simp [Patron.return_item, hdue, hlate, Item.check_in, hco]
          have hstate : (s.return_item pid iid now).2.1 =
              { s with
                patrons := dinsert s.patrons pid
                  { p with borrowed_items := ddel p.borrowed_items it.item_id,
                           fine_amount := p.fine_amount +
                             (((now - due) / secPerDay : Int) : ℚ) * (1 / 4) },
                items := dinsert s.items iid { it with checked_out := false },
                transaction_log := s.transaction_log ++
                  [Transaction.return_item pid iid
                    ((((now - due) / secPerDay : Int) : ℚ) * (1 / 4))] } := by
            simp [LibrarySystem.return_item, hp, hit, hret]
          rw [hstate]
          exact sysInv_return_core s pid iid p _ it _ hI hp hit hbd rfl
        · have hret : p.return_item it now =
              ((true, 0),
                { p with borrowed_items := ddel p.borrowed_items it.item_id },
                { it with checked_out := false }) := by
            simp [Patron.return_item, hdue, hlate, Item.check_in, hco]
          have hstate : (s.return_item pid iid now).2.1 =
              { s with
                patrons := dinsert s.patrons pid
                  { p with borrowed_items := ddel p.borrowed_items it.item_id },
                items := dinsert s.items iid { it with checked_out := false },
                transaction_log := s.transaction_log ++
                  [Transaction.return_item pid iid 0] } := by
            simp [LibrarySystem.return_item, hp, hit, hret]
          rw [hstate]
          exact sysInv_return_core s pid iid p _ it _ hI hp hit hbd rfl

/-- Core invariant step for an update that replaces patron `pid` by a patron
with the same borrowed mapping (fine payment). -/
theorem sysInv_patron_update (s : LibrarySystem) (pid : String) (p p2 : Patron)
    (hI : SysInv s) (hp : dget s.patrons pid = some p)
    (hp2 : p2.borrowed_items = p.borrowed_items) :
    SysInv { s with patrons := dinsert s.patrons pid p2 } := by
  have hcnt : ∀ jid, List.countP (fun kp => kp.2.borrows jid)
      (dinsert s.patrons pid p2) = borrowerCount s jid := by
    intro jid
    have h2 : p2.borrows jid = p.borrows jid := by
      simp [Patron.borrows, hp2]
    have h1 : List.countP (fun kp => kp.2.borrows jid) (dinsert s.patrons pid p2)
        + (if p.borrows jid then 1 else 0)
        = borrowerCount s jid + (if p2.borrows jid then 1 else 0) :=
      countP_dinsert _ hI.patrons_nodup hp _
    rw [h2] at h1
    omega
  refine ⟨hI.items_nodup, hI.items_key, ?_, ?_, ?_, ?_⟩
  · show (keys (dinsert s.patrons pid p2)).Nodup
    rw [keys_dinsert_present _ _ _ (by rw [hp]; rfl)]
    exact hI.patrons_nodup
  · show ∀ kv ∈ dinsert s.patrons pid p2, ∀ e ∈ kv.2.borrowed_items,
      ∃ it, dget s.items e.1 = some it ∧ it.checked_out = true
    intro kv hkv e he
    rcases mem_dinsert hI.patrons_nodup hkv with h1 | h1
    · rw [h1] at he
      rw [hp2] at he
      exact hI.borrowed_in_catalog (pid, p) (dget_mem hp) e he
    · exact hI.borrowed_in_catalog kv h1.1 e he
  · show ∀ jid, List.countP (fun kp => kp.2.borrows jid)
      (dinsert s.patrons pid p2) ≤ 1
    intro jid
    rw [hcnt jid]
    exact hI.count_le_one jid
  · show ∀ kv ∈ s.items, kv.2.checked_out = true ↔
      List.countP (fun kp => kp.2.borrows kv.2.item_id)
        (dinsert s.patrons pid p2) = 1
    intro kv hkv
    rw [hcnt kv.2.item_id]
    exact hI.flag_iff kv hkv

theorem sysInv_pay_fine (s : LibrarySystem) (pid : String) (amount : ℚ)
    (hI : SysInv s) : SysInv (s.pay_fine pid amount).2 := by
  cases hp : dget s.patrons pid with
  | none => simpa [LibrarySystem.pay_fine, hp] using hI
  | some p =>
    have hstate : (s.pay_fine pid amount).2 =
        { s with patrons := dinsert s.patrons pid (p.pay_fine amount).2 } := by
      simp [LibrarySystem.pay_fine, hp]
    rw [hstate]
    refine sysInv_patron_update s pid p _ hI hp ?_
    rw [Patron.pay_fine]
    split <;> rfl

theorem sysInv_initial (nm : String) : SysInv (LibrarySystem.initial nm) := by
  refine ⟨?_, ?_, ?_, ?_, ?_, ?_⟩ <;>
    simp [LibrarySystem.initial, keys, borrowerCount]

/-- Every reachable state satisfies the system invariant. -/
theorem reachable_sysInv {s : LibrarySystem} (h : Reachable s) : SysInv s := by
  induction h with
  | init nm => exact sysInv_initial nm
  | add_item iid title attrs _ ih => exact sysInv_add_item _ iid title attrs ih
  | remove_item iid _ ih => exact sysInv_remove_item _ iid ih
  | register_patron pid nm _ ih => exact sysInv_register_patron _ pid nm ih
  | add_librarian lid _ ih => exact sysInv_add_librarian _ lid ih
  | check_out_item pid iid now due_days _ ih =>
    exact sysInv_check_out_item _ pid iid now due_days ih
  | return_item pid iid now _ ih => exact sysInv_return_item _ pid iid now ih
  | pay_fine pid amount _ ih => exact sysInv_pay_fine _ pid amount ih

/-! ## Claims -/

/-- Failing and succeeding demonstration sinks for the broadcast claim. -/
def c2sinkA : Sink := ⟨0, fun _ => false⟩

def c2sinkB : Sink := ⟨1, fun _ => true⟩

/-- C2 counterexample: with two subscribed sinks where the first one's
receive fails, the second sink does not receive the broadcast — contradicting
the claim that delivery still proceeds to every sink subscribed after a
failing one. -/
theorem c2_counterexample :
    ¬ ((1 : Nat) ∈ (notifyTrace [c2sinkA, c2sinkB] "hello").1) := by
  decide

/-- C2 (amended): a broadcast invokes the subscribed sinks' receive
operations in subscription order up to and including the first sink whose
receive fails; that failure halts delivery to the sinks subscribed after it
(the exception propagates); when no sink fails, every subscribed sink
receives the message, in subscription order; there is no retry and no
queuing. -/
theorem c2_broadcast_order : ∀ (obs : List Sink) (msg : String),
    notifyTrace obs msg = specTrace obs msg := by
  intro obs msg
  induction obs with
  | nil => simp [notifyTrace, specTrace]
  | cons o t ih =>
    by_cases hok : o.ok msg
    · have h1 : notifyTrace (o :: t) msg
          = (o.id :: (notifyTrace t msg).1, (notifyTrace t msg).2) := by
        simp [notifyTrace, hok]
      rw [h1, ih]
      unfold specTrace
      rw [List.dropWhile_cons, List.takeWhile_cons]
      simp only [hok, if_true]
      cases hd : t.dropWhile (fun o2 => o2.ok msg) with
      | nil => simp [hd]
      | cons f r => simp [hd]
    · have h1 : notifyTrace (o :: t) msg = ([o.id], false) := by
        simp [notifyTrace, hok]
      rw [h1]
      unfold specTrace
      rw [List.dropWhile_cons, List.takeWhile_cons]
      simp [hok]

/-- C3: a successful return of an item in the patron's borrowed mapping
reports, strictly past the due date, a fee of `max 0 d * 0.25` where `d` is
the whole-day difference between now and the due date, and adds it to the
accumulated fine; on or before the due date it reports zero and leaves the
fine unchanged. -/
theorem c3_return_late_fee (p : Patron) (it : Item) (now due : Int)
    (h : dget p.borrowed_items it.item_id = some due) :
    ((p.return_item it now).1.1 = true) ∧
    (due < now →
      (p.return_item it now).1.2 =
        ((max 0 ((now - due) / secPerDay) : Int) : ℚ) * (1 / 4) ∧
      (p.return_item it now).2.1.fine_amount =
        p.fine_amount + (p.return_item it now).1.2) ∧
    (¬ due < now →
      (p.return_item it now).1.2 = 0 ∧
      (p.return_item it now).2.1.fine_amount = p.fine_amount) := by
  have hmax : due < now → max 0 ((now - due) / secPerDay) = (now - due) / secPerDay :=
    fun hl => max_eq_right (Int.ediv_nonneg (by omega) (by norm_num [secPerDay]))
  by_cases hl : due < now
  · simp [Patron.return_item, h, hl, hmax hl]
  · simp [Patron.return_item, h, hl]

/-- Concrete late-return data: one item due at time 0, returned two days
later. -/
def c3p : Patron := ⟨"P", "Pat", [("X", 0)], 0⟩

def c3it : Item := ⟨"X", "BX", true, []⟩

/-- C3 witness: returning exactly two days late reports a fee of half a
currency unit and adds it to the fine. -/
theorem c3_witness :
    (c3p.return_item c3it 172800).1.1 = true ∧
    (c3p.return_item c3it 172800).1.2 =
      ((max 0 ((172800 - 0) / secPerDay) : Int) : ℚ) * (1 / 4) ∧
    (c3p.return_item c3it 172800).2.1.fine_amount =
      c3p.fine_amount + (c3p.return_item c3it 172800).1.2 := by
  have h := c3_return_late_fee c3p c3it 172800 0 (by decide)
  exact ⟨h.1, (h.2.1 (by decide)).1, (h.2.1 (by decide)).2⟩

/-- C4: a checkout whose patron and item exist, whose item is not checked
out, and whose item id is not in the patron's borrowed mapping succeeds,
flags the item, records due date now + loan_days in the borrowed mapping,
appends exactly one check_out record to the log and broadcasts exactly one
message naming the patron and item. -/
theorem c4_check_out_success (s : LibrarySystem) (pid iid : String)
    (now due_days : Int) (p : Patron) (it : Item)
    (hp : dget s.patrons pid = some p) (hit : dget s.items iid = some it)
    (hco : it.checked_out = false)
    (hnb : dget p.borrowed_items it.item_id = none) :
    ((s.check_out_item pid iid now due_days).1 = true) ∧
    (dget (s.check_out_item pid iid now due_days).2.1.items iid =
      some { it with checked_out := true }) ∧
    (∃ p2, dget (s.check_out_item pid iid now due_days).2.1.patrons pid = some p2 ∧
      dget p2.borrowed_items it.item_id = some (now + due_days * secPerDay)) ∧
    ((s.check_out_item pid iid now due_days).2.1.transaction_log =
      s.transaction_log ++ [Transaction.check_out pid iid due_days]) ∧
    ((s.check_out_item pid iid now due_days).2.2 =
      [p.name ++ " has borrowed: " ++ it.title]) := by
  have hbr : p.borrow_item it now due_days =
      (true,
        { p with borrowed_items :=
            dinsert p.borrowed_items it.item_id (now + due_days * secPerDay) },
        { it with checked_out := true }) := by
    simp [Patron.borrow_item, hco, hnb, Item.check_out]
  have hitems : (s.check_out_item pid iid now due_days).2.1.items
      = dinsert s.items iid { it with checked_out := true } := by
    simp [LibrarySystem.check_out_item, hp, hit, hbr]
  have hpatrons : (s.check_out_item pid iid now due_days).2.1.patrons
      = dinsert s.patrons pid
        { p with borrowed_items :=
            dinsert p.borrowed_items it.item_id (now + due_days * secPerDay) } := by
    simp [LibrarySystem.check_out_item, hp, hit, hbr]
  refine ⟨?_, ?_, ?_, ?_, ?_⟩
  · simp [LibrarySystem.check_out_item, hp, hit, hbr]
  · rw [hitems]
    exact dget_dinsert_self _ _ _
  · refine ⟨{ p with borrowed_items := dinsert p.borrowed_items it.item_id (now + due_days * secPerDay) }, ?_, ?_⟩
    · rw [hpatrons]
      exact dget_dinsert_self _ _ _
    · exact dget_dinsert_self _ _ _
  · simp [LibrarySystem.check_out_item, hp, hit, hbr]
  · simp [LibrarySystem.check_out_item, hp, hit, hbr]

/-- A one-item, one-patron system for the checkout witness. -/
def c4demo : LibrarySystem :=
  ⟨"L", [("X", Item.fresh "X" "BX" [])], [("P", Patron.fresh "P" "Pat")], [], []⟩

/-- C4 witness: the checkout succeeds on the concrete one-item system. -/
theorem c4_witness :
    ((c4demo.check_out_item "P" "X" 0 14).1 = true) ∧
    ((c4demo.check_out_item "P" "X" 0 14).2.2 = ["Pat has borrowed: BX"]) := by
  have h := c4_check_out_success c4demo "P" "X" 0 14
    (Patron.fresh "P" "Pat") (Item.fresh "X" "BX" [])
    (by decide) (by decide) (by decide) (by decide)
  exact ⟨h.1, h.2.2.2.2⟩

/-- C5: a checkout of an item whose checked-out flag is already set fails
and returns the state completely unchanged, with no broadcast. -/
theorem c5_check_out_already_out (s : LibrarySystem) (pid iid : String)
    (now due_days : Int) (it : Item)
    (hit : dget s.items iid = some it) (hco : it.checked_out = true) :
    s.check_out_item pid iid now due_days = (false, s, []) := by
  cases hp : dget s.patrons pid with
  | none => simp [LibrarySystem.check_out_item, hp, hit]
  | some p =>
    have hbr : p.borrow_item it now due_days = (false, p, it) := by
      simp [Patron.borrow_item, hco]
    simp [LibrarySystem.check_out_item, hp, hit, hbr]

/-- A system whose single item is already checked out. -/
def c5demo : LibrarySystem :=
  ⟨"L", [("X", ⟨"X", "BX", true, []⟩)], [("P", Patron.fresh "P" "Pat")], [], []⟩

/-- C5 witness: the failing checkout on a checked-out item leaves the
concrete system untouched. -/
theorem c5_witness :
    c5demo.check_out_item "P" "X" 0 14 = (false, c5demo, []) :=
  c5_check_out_already_out c5demo "P" "X" 0 14 ⟨"X", "BX", true, []⟩
    (by decide) (by decide)

/-- C9: paying a fine through the registry succeeds and decreases the
patron's accumulated fine by exactly the amount iff the amount is strictly
positive and at most the current fine; otherwise it fails and the whole
state is unchanged; a non-negative fine stays non-negative. -/
theorem c9_pay_fine_spec (s : LibrarySystem) (pid : String) (amount : ℚ)
    (p : Patron) (hp : dget s.patrons pid = some p) (hnn : 0 ≤ p.fine_amount) :
    ((s.pay_fine pid amount).1 = true ↔ 0 < amount ∧ amount ≤ p.fine_amount) ∧
    ((s.pay_fine pid amount).1 = true →
      dget (s.pay_fine pid amount).2.patrons pid =
        some { p with fine_amount := p.fine_amount - amount }) ∧
    ((s.pay_fine pid amount).1 = false → (s.pay_fine pid amount).2 = s) ∧
    (∀ p2, dget (s.pay_fine pid amount).2.patrons pid = some p2 →
      0 ≤ p2.fine_amount) := by
  by_cases hg : amount ≤ 0 ∨ p.fine_amount < amount
  · have hpf : p.pay_fine amount = (false, p) := by
      simp [Patron.pay_fine, hg]
    have hres : s.pay_fine pid amount =
        (false, { s with patrons := dinsert s.patrons pid p }) := by
      simp [LibrarySystem.pay_fine, hp, hpf]
    have hsame : dinsert s.patrons pid p = s.patrons := dinsert_self _ _ _ hp
    have hstate : ({ s with patrons := dinsert s.patrons pid p }) = s := by
      rw [hsame]
    rw [hres, hstate]
    refine ⟨?_, ?_, ?_, ?_⟩
    · simp only [Bool.false_eq_true, false_iff]
      intro hc
      rcases hg with hg | hg
      · exact absurd hc.1 (not_lt.mpr hg)
      · exact absurd hc.2 (not_le.mpr hg)
    · intro hc
      simp at hc
    · intro _
      rfl
    · intro p2 hp2
      rw [hp] at hp2
      injection hp2 with hp2e
      rw [← hp2e]
      exact hnn
  · push_neg at hg
    obtain ⟨h1, h2⟩ := hg
    have hg2 : ¬ (amount ≤ 0 ∨ p.fine_amount < amount) := by
      push_neg
      exact ⟨h1, h2⟩
    set p2 : Patron := { p with fine_amount := p.fine_amount - amount } with hp2def
    have hpf : p.pay_fine amount = (true, p2) := by
      simp [Patron.pay_fine, hg2, hp2def]
    have hres : s.pay_fine pid amount =
        (true, { s with patrons := dinsert s.patrons pid p2 }) := by
      simp [LibrarySystem.pay_fine, hp, hpf]
    rw [hres]
    refine ⟨?_, ?_, ?_, ?_⟩
    · simp only [true_iff]
      exact ⟨h1, h2⟩
    · intro _
      show dget (dinsert s.patrons pid p2) pid = some p2
      exact dget_dinsert_self _ _ _
    · intro hc
      simp at hc
    · intro q hq
      have hq2 : dget (dinsert s.patrons pid p2) pid = some q := hq
      rw [dget_dinsert_self] at hq2
      injection hq2 with hqe
      rw [← hqe, hp2def]
      show 0 ≤ p.fine_amount - amount
      exact sub_nonneg.mpr h2

/-- A system with one patron owing one currency unit. -/
def c9demo : LibrarySystem :=
  ⟨"L", [], [("P", ⟨"P", "Pat", [], 1⟩)], [], []⟩

/-- C9 witness: paying half a unit of a one-unit fine succeeds and leaves
half a unit owed. -/
theorem c9_witness :
    ((c9demo.pay_fine "P" (1 / 2)).1 = true) ∧
    (dget (c9demo.pay_fine "P" (1 / 2)).2.patrons "P" =
      some ⟨"P", "Pat", [], 1 - 1 / 2⟩) := by
  have h := c9_pay_fine_spec c9demo "P" (1 / 2) ⟨"P", "Pat", [], 1⟩
    (by decide) (by norm_num)
  have hs : (c9demo.pay_fine "P" (1 / 2)).1 = true :=
    h.1.mpr ⟨by norm_num, by norm_num⟩
  exact ⟨hs, h.2.1 hs⟩

/-- C1: in every state reachable by the public operations, an item's
checked-out flag is set if and only if its id appears in the borrowed
mapping of exactly one registered patron. -/
theorem c1_checked_out_iff_one_borrower (s : LibrarySystem) (h : Reachable s) :
    ∀ kv ∈ s.items, (kv.2.checked_out = true ↔ borrowerCount s kv.2.item_id = 1) :=
  fun kv hkv => (reachable_sysInv h).flag_iff kv hkv

/-- A reachable demonstration state: one item, one patron, one checkout. -/
def c1demo : LibrarySystem :=
  ((((LibrarySystem.initial "L").add_item (Item.fresh "X" "BX" [])).2.1.register_patron
    (Patron.fresh "P" "Pat")).2.1.check_out_item "P" "X" 0 14).2.1

theorem c1demo_reachable : Reachable c1demo :=
  Reachable.check_out_item "P" "X" 0 14
    (Reachable.register_patron "P" "Pat"
      (Reachable.add_item "X" "BX" [] (Reachable.init "L")))

/-- C1 witness: in the concrete reachable state the checked-out item has
exactly one borrower. -/
theorem c1_witness :
    ((⟨"X", "BX", true, []⟩ : Item).checked_out = true ↔
      borrowerCount c1demo "X" = 1) :=
  c1_checked_out_iff_one_borrower c1demo c1demo_reachable
    ("X", ⟨"X", "BX", true, []⟩) (by decide)

theorem attrVal_beq_symm (a b : AttrVal) : (a == b) = (b == a) := by
  by_cases h : a = b
  · rw [h]
  · rw [beq_eq_false_iff_ne.mpr h, beq_eq_false_iff_ne.mpr (Ne.symm h)]

/-- The source's criterion test agrees with the spec-side restatement. -/
theorem matchesCriterion_eq_spec (it : Item) (k : String) (v : AttrVal) :
    matchesCriterion it k v = specMatches it k v := by
  unfold matchesCriterion specMatches
  by_cases hk : k = "checked_out"
  · rw [if_pos hk, if_pos hk]
    exact attrVal_beq_symm _ _
  · rw [if_neg hk, if_neg hk]
    cases hga : it.getAttr k with
    | none => rfl
    | some iv =>
      cases iv with
      | str s1 =>
        cases v with
        | str s2 => rfl
        | int n => rfl
        | bool b => rfl
      | int n => rfl
      | bool b => rfl

/-- C8: an item is in the search result iff it is a catalog item and every
criterion matches it under the spec-side matcher (checked_out compares the
flag; a missing attribute excludes the item; string attributes match by
case-insensitive substring; everything else by exact equality); with no
criteria, the result is exactly the catalog item sequence. -/
theorem c8_search_semantics (s : LibrarySystem) (crit : List (String × AttrVal))
    (it : Item) :
    (it ∈ s.search_items crit ↔
      it ∈ s.items.map Prod.snd ∧
        crit.all (fun kv => specMatches it kv.1 kv.2) = true) ∧
    s.search_items [] = s.items.map Prod.snd := by
  constructor
  · unfold LibrarySystem.search_items
    rw [List.mem_filter]
    constructor
    · rintro ⟨h1, h2⟩
      refine ⟨h1, ?_⟩
      simpa [matchesCriterion_eq_spec] using h2
    · rintro ⟨h1, h2⟩
      refine ⟨h1, ?_⟩
      simpa [matchesCriterion_eq_spec] using h2
  · unfold LibrarySystem.search_items
    simp

/-! ## Popularity-count lemmas -/

theorem foldl_counts_eq (log : List Transaction) (acc : List (String × Nat)) :
    log.foldl (fun counts t =>
      match t with
      | Transaction.check_out _ iid _ => bump counts iid
      | _ => counts) acc
    = (log.filterMap Transaction.coItemId).foldl bump acc := by
  induction log generalizing acc with
  | nil => rfl
  | cons t r ih =>
    cases t <;> simp [List.filterMap_cons, Transaction.coItemId, List.foldl_cons, ih]

theorem mem_dedupFirst {x : String} {l : List String} : x ∈ dedupFirst l ↔ x ∈ l := by
  induction l with
  | nil => simp [dedupFirst]
  | cons a t ih =>
    simp only [dedupFirst, List.mem_cons, List.mem_filter]
    constructor
    · rintro (h | ⟨h1, _⟩)
      · exact Or.inl h
      · exact Or.inr (ih.mp h1)
    · rintro (h | h1)
      · exact Or.inl h
      · by_cases hax : x = a
        · exact Or.inl hax
        · exact Or.inr ⟨ih.mpr h1, by simp [hax]⟩

theorem nodup_dedupFirst (l : List String) : (dedupFirst l).Nodup := by
  induction l with
  | nil => simp [dedupFirst]
  | cons a t ih =>
    rw [dedupFirst, List.nodup_cons]
    constructor
    · intro hmem
      rw [List.mem_filter] at hmem
      simp at hmem
    · exact ih.filter _

theorem dedupFirst_concat (l : List String) (x : String) :
    dedupFirst (l ++ [x]) = if x ∈ l then dedupFirst l else dedupFirst l ++ [x] := by
  induction l with
  | nil => simp [dedupFirst]
  | cons a t ih =>
    show dedupFirst (a :: (t ++ [x])) = _
    rw [dedupFirst, ih]
    by_cases hx : x ∈ t
    · rw [if_pos hx, if_pos (List.mem_cons_of_mem a hx), dedupFirst]
    · rw [if_neg hx]
      by_cases hxa : x = a
      · subst hxa
        rw [if_pos (List.mem_cons_self x t), List.filter_append, dedupFirst]
        simp
      · have hxat : x ∉ a :: t := by
          simp [hxa, hx]
        rw [if_neg hxat, List.filter_append, dedupFirst]
        simp [hxa]

theorem bump_absent {counts : List (String × Nat)} {x : String}
    (h : ∀ e ∈ counts, e.1 ≠ x) : bump counts x = counts ++ [(x, 1)] := by
  induction counts with
  | nil => rfl
  | cons e t ih =>
    obtain ⟨k0, n⟩ := e
    have hk0 : k0 ≠ x := h (k0, n) (by simp)
    simp [bump, hk0, ih (fun e2 he2 => h e2 (List.mem_cons_of_mem _ he2))]

theorem bump_map_mem (l : List String) (g : String → Nat) (x : String)
    (hnd : l.Nodup) (hx : x ∈ l) :
    bump (l.map fun k => (k, g k)) x =
      l.map (fun k => (k, if k = x then g k + 1 else g k)) := by
  induction l with
  | nil => simp at hx
  | cons a t ih =>
    rw [List.nodup_cons] at hnd
    by_cases hax : a = x
    · subst hax
      have hmape : t.map (fun k => (k, if k = a then g k + 1 else g k))
          = t.map (fun k => (k, g k)) :=
        List.map_congr_left (fun k hk => by
          have hkx : k ≠ a := fun he => hnd.1 (he ▸ hk)
          simp [hkx])
      simp [bump, List.map_cons, hmape]
    · have hxt : x ∈ t := by
        rcases List.mem_cons.mp hx with h1 | h1
        · exact absurd h1.symm hax
        · exact h1
      simp [bump, hax, List.map_cons, ih hnd.2 hxt]

theorem bumpFold_eq (ids : List String) :
    ids.foldl bump [] = (dedupFirst ids).map (fun k => (k, ids.count k)) := by
  induction ids using List.reverseRecOn with
  | nil => rfl
  | append_singleton l x ih =>
    rw [List.foldl_append, List.foldl_cons, List.foldl_nil, ih, dedupFirst_concat]
    by_cases hx : x ∈ l
    · rw [if_pos hx]
      rw [bump_map_mem (dedupFirst l) (fun k => l.count k) x (nodup_dedupFirst l)
        (mem_dedupFirst.mpr hx)]
      apply List.map_congr_left
      intro k hk
      by_cases hkx : k = x
      · subst hkx
        simp [List.count_append]
      · simp [hkx, List.count_append]
    · rw [if_neg hx]
      have habs : ∀ e ∈ (dedupFirst l).map (fun k => (k, l.count k)), e.1 ≠ x := by
        intro e he
        rw [List.mem_map] at he
        obtain ⟨k, hk, hke⟩ := he
        rw [← hke]
        intro hex
        exact hx (mem_dedupFirst.mp (hex ▸ hk))
      rw [bump_absent habs, List.map_append]
      congr 1
      · apply List.map_congr_left
        intro k hk
        have hkx : k ≠ x := fun he => hx (he ▸ mem_dedupFirst.mp hk)
        simp [List.count_append, hkx]
      · simp [List.count_append, List.count_eq_zero.mpr hx]

/-- Three checkouts of item X (with returns in between) and one of item Y. -/
def c7demo : LibrarySystem :=
  (((((((((LibrarySystem.initial "L").add_item
    (Item.fresh "X" "BX" [])).2.1.add_item
    (Item.fresh "Y" "BY" [])).2.1.register_patron
    (Patron.fresh "P" "Pat")).2.1.check_out_item "P" "X" 0 14).2.1.return_item
    "P" "X" 0).2.1.check_out_item "P" "X" 0 14).2.1.return_item
    "P" "X" 0).2.1.check_out_item "P" "X" 0 14).2.1.check_out_item "P" "Y" 0 14
    |>.2.1

/-- C7: `get_popular_items` equals the spec-side description — count
`check_out` log records per item id, pair the distinct counted ids (in
first-encountered order) still in the catalog with their counts, stable-sort
by descending count, truncate to the limit; and in the three-X / one-Y
scenario the top-1 query returns exactly X with count 3. -/
theorem c7_most_borrowed :
    (∀ (s : LibrarySystem) (limit : Nat),
      s.get_popular_items limit = mostBorrowedSpec s limit) ∧
    c7demo.get_popular_items 1 = [(⟨"X", "BX", true, []⟩, 3)] := by
  constructor
  · intro s limit
    simp only [LibrarySystem.get_popular_items, mostBorrowedSpec]
    rw [foldl_counts_eq, bumpFold_eq]
    congr 1
    congr 1
    rw [List.filterMap_map]
    rfl
  · decide

theorem mem_insDesc {α : Type} (key : α → Nat) (x y : α) (l : List α) :
    y ∈ insDesc key x l ↔ y = x ∨ y ∈ l := by
  induction l with
  | nil => simp [insDesc]
  | cons a t ih =>
    rw [insDesc]
    by_cases h : key a < key x
    · simp [h]
    · simp [h, ih]
      tauto

theorem mem_sortDesc_aux {α : Type} (key : α → Nat) (l : List α) (y : α) :
    ∀ acc, y ∈ l.foldl (fun a x => insDesc key x a) acc → y ∈ acc ∨ y ∈ l := by
  induction l with
  | nil =>
    intro acc h
    exact Or.inl h
  | cons b t ih =>
    intro acc h
    rw [List.foldl_cons] at h
    rcases ih (insDesc key b acc) h with h1 | h1
    · rcases (mem_insDesc key b y acc).mp h1 with h2 | h2
      · exact Or.inr (by simp [h2])
      · exact Or.inl h2
    · exact Or.inr (List.mem_cons_of_mem _ h1)

theorem mem_of_mem_sortDesc {α : Type} {key : α → Nat} {l : List α} {y : α}
    (h : y ∈ sortDesc key l) : y ∈ l := by
  rcases mem_sortDesc_aux key l y [] h with h1 | h1
  · simp at h1
  · exact h1

/-- Two checkouts of X, one of Y (still out), then X is removed. -/
def c10demo : LibrarySystem :=
  (((((((((LibrarySystem.initial "L").add_item
    (Item.fresh "X" "BX" [])).2.1.add_item
    (Item.fresh "Y" "BY" [])).2.1.register_patron
    (Patron.fresh "P" "Pat")).2.1.check_out_item "P" "X" 0 14).2.1.return_item
    "P" "X" 0).2.1.check_out_item "P" "X" 0 14).2.1.return_item
    "P" "X" 0).2.1.check_out_item "P" "Y" 0 14).2.1.remove_item "X"
    |>.2.1

/-- C10: every pair returned by `get_popular_items` carries an item that is
currently in the catalog; in the concrete scenario the removed item X —
despite holding the top checkout count of 2 — yields no pair, the result is
shorter than the limit, and only Y appears. -/
theorem c10_removed_items_excluded :
    (∀ (s : LibrarySystem) (limit : Nat) (pr : Item × Nat),
      pr ∈ s.get_popular_items limit → ∃ iid, dget s.items iid = some pr.1) ∧
    (c10demo.get_popular_items 2 = [(⟨"Y", "BY", true, []⟩, 1)] ∧
      (c10demo.get_popular_items 2).length < 2 ∧
      ∀ pr ∈ c10demo.get_popular_items 2, pr.1.item_id ≠ "X") := by
  refine ⟨?_, ?_, ?_, ?_⟩
  · intro s limit pr hpr
    simp only [LibrarySystem.get_popular_items] at hpr
    have h1 := List.mem_of_mem_take hpr
    have h2 := mem_of_mem_sortDesc h1
    rw [List.mem_filterMap] at h2
    obtain ⟨kc, hkc, hf⟩ := h2
    rw [Option.map_eq_some'] at hf
    obtain ⟨it2, hit2, hpr2⟩ := hf
    refine ⟨kc.1, ?_⟩
    rw [← hpr2]
    exact hit2
  · decide
  · decide
  · intro pr hpr
    have he : c10demo.get_popular_items 2 = [(⟨"Y", "BY", true, []⟩, 1)] := by
      decide
    rw [he] at hpr
    simp at hpr
    rw [hpr]
    decide

/-- Whether patron `pid` is registered and currently borrowing `iid`. -/
def borrowedBy (s : LibrarySystem) (pid iid : String) : Bool :=
  match dget s.patrons pid with
  | none => false
  | some p => (dget p.borrowed_items iid).isSome

/-- C6: in a reachable state, a return fails (reporting a zero fine) iff the
item id is not in that patron's borrowed mapping (in particular when the
patron is unknown); on failure the state is completely unchanged and nothing
is broadcast; on success the borrowed entry is removed and the item's
checked-out flag is cleared. -/
theorem c6_return_failure_iff (s : LibrarySystem) (h : Reachable s)
    (pid iid : String) (now : Int) :
    ((s.return_item pid iid now).1.1 = false ↔ borrowedBy s pid iid = false) ∧
    ((s.return_item pid iid now).1.1 = false →
      (s.return_item pid iid now).1.2 = 0 ∧
      (s.return_item pid iid now).2.1 = s ∧
      (s.return_item pid iid now).2.2 = []) ∧
    ((s.return_item pid iid now).1.1 = true →
      (∃ p2, dget (s.return_item pid iid now).2.1.patrons pid = some p2 ∧
        dget p2.borrowed_items iid = none) ∧
      (∃ it2, dget (s.return_item pid iid now).2.1.items iid = some it2 ∧
        it2.checked_out = false)) := by
  have hI := reachable_sysInv h
  cases hp : dget s.patrons pid with
  | none =>
    have hres : s.return_item pid iid now = ((false, 0), s, []) := by
      simp [LibrarySystem.return_item, hp]
    rw [hres]
    refine ⟨by simp [borrowedBy, hp], fun _ => ⟨rfl, rfl, rfl⟩, fun hc => by simp at hc⟩
  | some p =>
    cases hit : dget s.items iid with
    | none =>
      have hnb : dget p.borrowed_items iid = none := by
        cases hd : dget p.borrowed_items iid with
        | none => rfl
        | some due =>
          obtain ⟨it2, hit2, _⟩ := hI.borrowed_in_catalog (pid, p) (dget_mem hp)
            (iid, due) (dget_mem hd)
          rw [hit] at hit2
          cases hit2
      have hres : s.return_item pid iid now = ((false, 0), s, []) := by
        simp [LibrarySystem.return_item, hp, hit]
      rw [hres]
      refine ⟨by simp [borrowedBy, hp, hnb], fun _ => ⟨rfl, rfl, rfl⟩,
        fun hc => by simp at hc⟩
    | some it =>
      have hkeyi : iid = it.item_id := hI.items_key (iid, it) (dget_mem hit)
      subst hkeyi
      cases hdue : dget p.borrowed_items it.item_id with
      | none =>
        have hret : p.return_item it now = ((false, 0), p, it) := by
          simp [Patron.return_item, hdue]
        have hres : s.return_item pid it.item_id now = ((false, 0), s, []) := by
          simp [LibrarySystem.return_item, hp, hit, hret]
        rw [hres]
        refine ⟨by simp [borrowedBy, hp, hdue], fun _ => ⟨rfl, rfl, rfl⟩,
          fun hc => by simp at hc⟩
      | some due =>
        have hco : it.checked_out = true := by
          obtain ⟨it2, hit2, hco2⟩ := hI.borrowed_in_catalog (pid, p) (dget_mem hp)
            (it.item_id, due) (dget_mem hdue)
          rw [hit] at hit2
          injection hit2 with h2
          rw [h2]
          exact hco2
        have hsucc : (p.return_item it now).1.1 = true ∧
            (p.return_item it now).2.1.borrowed_items =
              ddel p.borrowed_items it.item_id ∧
            (p.return_item it now).2.2 = { it with checked_out := false } := by
          unfold Patron.return_item
          rw [hdue]
          by_cases hl : due < now <;> simp [hl, Item.check_in, hco]
        have hres1 : (s.return_item pid it.item_id now).1.1 = true := by
          simp [LibrarySystem.return_item, hp, hit, hsucc.1]
        have hpat : (s.return_item pid it.item_id now).2.1.patrons
            = dinsert s.patrons pid (p.return_item it now).2.1 := by
          simp [LibrarySystem.return_item, hp, hit, hsucc.1]
        have hitm : (s.return_item pid it.item_id now).2.1.items
            = dinsert s.items it.item_id (p.return_item it now).2.2 := by
          simp [LibrarySystem.return_item, hp, hit, hsucc.1]
        refine ⟨?_, ?_, ?_⟩
        · rw [hres1]
          simp [borrowedBy, hp, hdue]
        · intro hc
          rw [hres1] at hc
          simp at hc
        · intro _
          constructor
          · refine ⟨(p.return_item it now).2.1, ?_, ?_⟩
            · rw [hpat]
              exact dget_dinsert_self _ _ _
            · rw [hsucc.2.1]
              exact dget_ddel_self _ _
          · refine ⟨{ it with checked_out := false }, ?_, rfl⟩
            rw [hitm, hsucc.2.2]
            exact dget_dinsert_self _ _ _

/-- A reachable state with one checked-out item for the return claim. -/
def c6demo : LibrarySystem :=
  ((((LibrarySystem.initial "L").add_item (Item.fresh "X" "BX" [])).2.1.register_patron
    (Patron.fresh "P" "Pat")).2.1.check_out_item "P" "X" 0 14).2.1

theorem c6demo_reachable : Reachable c6demo :=
  Reachable.check_out_item "P" "X" 0 14
    (Reachable.register_patron "P" "Pat"
      (Reachable.add_item "X" "BX" [] (Reachable.init "L")))

/-- C6 witness: the failure-iff equivalence instantiated on the concrete
reachable state. -/
theorem c6_witness :
    ((c6demo.return_item "P" "X" 0).1.1 = false ↔
      borrowedBy c6demo "P" "X" = false) :=
  (c6_return_failure_iff c6demo c6demo_reachable "P" "X" 0).1

/-- C10 witness: the surviving pair of the concrete scenario indeed carries
a catalog item. -/
theorem c10_witness :
    ∃ iid, dget c10demo.items iid = some (⟨"Y", "BY", true, []⟩ : Item) :=
  c10_removed_items_excluded.1 c10demo 2 (⟨"Y", "BY", true, []⟩, 1) (by decide)
